import Mathlib

/-!
Verification of the local encoded key-value file store of LocaleKit
(`src/src-tauri/src/lib.rs`).

The store persists each key `key` as a file `<app-data-dir>/.keys/<key>.dat`
whose content is the standard base64 encoding of the UTF-8 bytes of the value.
We shallowly embed the store over an explicit filesystem state `FS` mapping
file paths (relative to the application data directory) to raw byte contents.
Directory resolution/creation (`get_storage_path`), `fs::write` and
`fs::remove_file` I/O failures are environmental (the OS refusing the
operation); the embedding models the environment in which they succeed, which
is the regime all the specified properties quantify over.  Every structured
error constructor below corresponds to one `format!` error string of the
source, as noted in its doc comment.
-/

/-- Filesystem state: a map from file path (a string, relative to the
application data directory) to the raw bytes stored in that file, `none`
when no such file exists.  Bytes are naturals; every byte written by the
store is below 256. -/
def FS : Type := String → Option (List Nat)

/-- Filesystem with no files at all. -/
def emptyFS : FS := fun _ => none

/-- Model of `get_storage_path`: the `.keys` directory under the application
data directory.  In the modeled environment `app.path().app_data_dir()`
resolves and `fs::create_dir_all` succeeds, so the helper returns this path. -/
def get_storage_path : String := ".keys"

/-- Model of `storage_path.join(format!("{}.dat", key))`: the path of the
file persisting `key`. -/
def key_file_path (key : String) : String :=
  get_storage_path ++ "/" ++ key ++ ".dat"

/-- Structured rendering of the error strings produced by the store:
`notFound k` is `format!("Key '{}' not found", k)`, `readError` is
`"Failed to read file: .."` (from `fs::read_to_string`), `decodeError` is
`"Failed to decode base64: .."`, `encodingError` is
`"Failed to decode value: .."` (from `String::from_utf8`). -/
inductive StorageError where
  | notFound (key : String)
  | readError
  | decodeError
  | encodingError
  deriving DecidableEq, Repr

/-- UTF-8 encoding of a single Unicode code point `n` (the scalar value of a
`char`), as produced by Rust's `str::as_bytes`. -/
def utf8EncodeChar (n : Nat) : List Nat :=
  if n < 0x80 then [n]
  else if n < 0x800 then [0xC0 + n / 64, 0x80 + n % 64]
  else if n < 0x10000 then [0xE0 + n / 4096, 0x80 + n / 64 % 64, 0x80 + n % 64]
  else [0xF0 + n / 262144, 0x80 + n / 4096 % 64, 0x80 + n / 64 % 64, 0x80 + n % 64]

/-- UTF-8 encoding of a list of characters. -/
def utf8EncodeList : List Char → List Nat
  | [] => []
  | c :: cs => utf8EncodeChar c.toNat ++ utf8EncodeList cs

/-- UTF-8 encoding of a string, i.e. Rust's `String::as_bytes`. -/
def utf8Encode (s : String) : List Nat := utf8EncodeList s.data

/-- Continuation byte of a UTF-8 sequence: high bits `10`. -/
def isCont (b : Nat) : Prop := 0x80 ≤ b ∧ b < 0xC0

instance (b : Nat) : Decidable (isCont b) := by unfold isCont; exact inferInstance

/-- Code point assembled from a two-byte UTF-8 sequence. -/
def utf8Scalar2 (b0 b1 : Nat) : Nat := (b0 - 0xC0) * 64 + (b1 - 0x80)

/-- Code point assembled from a three-byte UTF-8 sequence. -/
def utf8Scalar3 (b0 b1 b2 : Nat) : Nat :=
  (b0 - 0xE0) * 4096 + (b1 - 0x80) * 64 + (b2 - 0x80)

/-- Code point assembled from a four-byte UTF-8 sequence. -/
def utf8Scalar4 (b0 b1 b2 b3 : Nat) : Nat :=
  (b0 - 0xF0) * 262144 + (b1 - 0x80) * 4096 + (b2 - 0x80) * 64 + (b3 - 0x80)

/-- Acceptable code point for a two-byte sequence: rejects overlong forms. -/
def okScalar2 (n : Nat) : Prop := 0x80 ≤ n

instance (n : Nat) : Decidable (okScalar2 n) := by unfold okScalar2; exact inferInstance

/-- Acceptable code point for a three-byte sequence: rejects overlong forms
and surrogates. -/
def okScalar3 (n : Nat) : Prop := 0x800 ≤ n ∧ (n < 0xD800 ∨ 0xDFFF < n)

instance (n : Nat) : Decidable (okScalar3 n) := by unfold okScalar3; exact inferInstance

/-- Acceptable code point for a four-byte sequence: rejects overlong forms
and values beyond `0x10FFFF`. -/
def okScalar4 (n : Nat) : Prop := 0x10000 ≤ n ∧ n < 0x110000

instance (n : Nat) : Decidable (okScalar4 n) := by unfold okScalar4; exact inferInstance

/-- Decoding of one UTF-8 sequence: given the first byte `b0` and the
remaining bytes `l`, return the decoded character together with the bytes
after the sequence, or `none` when the input does not start with a valid
sequence.  This mirrors Rust's UTF-8 validation: continuation bytes must lie
in `0x80..0xBF`, overlong encodings, surrogate code points and values above
`0x10FFFF` are rejected. -/
def utf8Step (b0 : Nat) (l : List Nat) : Option (Char × List Nat) :=
  if b0 < 0x80 then some (Char.ofNat b0, l)
  else if b0 < 0xC0 then none
  else if b0 < 0xE0 then
    match l with
    | b1 :: l2 =>
      if isCont b1 ∧ okScalar2 (utf8Scalar2 b0 b1) then
        some (Char.ofNat (utf8Scalar2 b0 b1), l2)
      else none
    | [] => none
  else if b0 < 0xF0 then
    match l with
    | b1 :: b2 :: l2 =>
      if isCont b1 ∧ isCont b2 ∧ okScalar3 (utf8Scalar3 b0 b1 b2) then
        some (Char.ofNat (utf8Scalar3 b0 b1 b2), l2)
      else none
    | _ => none
  else if b0 < 0xF8 then
    match l with
    | b1 :: b2 :: b3 :: l2 =>
      if isCont b1 ∧ isCont b2 ∧ isCont b3 ∧ okScalar4 (utf8Scalar4 b0 b1 b2 b3) then
        some (Char.ofNat (utf8Scalar4 b0 b1 b2 b3), l2)
      else none
    | _ => none
  else none

/-- Fuel-bounded UTF-8 decoding loop: one character per valid sequence,
`none` as soon as an invalid sequence is found.  The fuel only serves
termination; it is sufficient whenever it is at least the input length,
since every sequence consumes at least one byte. -/
def utf8DecodeAux : Nat → List Nat → Option (List Char)
  | _, [] => some []
  | 0, _ :: _ => none
  | fuel + 1, b0 :: t =>
    match utf8Step b0 t with
    | some (c, l2) => (utf8DecodeAux fuel l2).map (fun cs => c :: cs)
    | none => none

/-- UTF-8 decoding of a byte list into characters, mirroring Rust's UTF-8
validation (`String::from_utf8` / `fs::read_to_string`). -/
def utf8DecodeCore (l : List Nat) : Option (List Char) :=
  utf8DecodeAux l.length l

/-- UTF-8 decoding of a byte list into a string when the bytes are valid
UTF-8, `none` otherwise: Rust's `String::from_utf8` (also how
`fs::read_to_string` turns file bytes into a `String`). -/
def utf8DecodeStr (l : List Nat) : Option String :=
  (utf8DecodeCore l).map String.mk

/-- Character of the standard base64 alphabet for a sextet `0 ≤ n < 64`. -/
def b64Char (n : Nat) : Char :=
  if n < 26 then Char.ofNat (65 + n)
  else if n < 52 then Char.ofNat (97 + (n - 26))
  else if n < 62 then Char.ofNat (48 + (n - 52))
  else if n = 62 then '+'
  else '/'

/-- Sextet value of a character of the standard base64 alphabet, `none` for
any character outside the alphabet (including the padding `=`). -/
def b64Sextet (c : Char) : Option Nat :=
  if 'A' ≤ c ∧ c ≤ 'Z' then some (c.toNat - 65)
  else if 'a' ≤ c ∧ c ≤ 'z' then some (c.toNat - 97 + 26)
  else if '0' ≤ c ∧ c ≤ '9' then some (c.toNat - 48 + 52)
  else if c = '+' then some 62
  else if c = '/' then some 63
  else none

/-- Standard base64 encoding with padding of a byte list, as produced by
`base64::engine::general_purpose::STANDARD.encode`. -/
def b64EncodeBytes : List Nat → List Char
  | [] => []
  | [b0] => [b64Char (b0 / 4), b64Char (b0 % 4 * 16), '=', '=']
  | [b0, b1] => [b64Char (b0 / 4), b64Char (b0 % 4 * 16 + b1 / 16), b64Char (b1 % 16 * 4), '=']
  | b0 :: b1 :: b2 :: rest =>
    b64Char (b0 / 4) :: b64Char (b0 % 4 * 16 + b1 / 16) ::
      b64Char (b1 % 16 * 4 + b2 / 64) :: b64Char (b2 % 64) :: b64EncodeBytes rest

/-- Standard base64 decoding with required canonical padding, as performed by
`base64::engine::general_purpose::STANDARD.decode`: the input length must be
a multiple of four, padding may appear only in the final quantum, and the
unused trailing bits of a padded final quantum must be zero. -/
def b64DecodeChars : List Char → Option (List Nat)
  | [] => some []
  | c0 :: c1 :: c2 :: c3 :: rest =>
    match b64Sextet c0, b64Sextet c1 with
    | some s0, some s1 =>
      if c2 = '=' then
        if c3 = '=' ∧ rest = [] ∧ s1 % 16 = 0 then some [s0 * 4 + s1 / 16] else none
      else
        match b64Sextet c2 with
        | some s2 =>
          if c3 = '=' then
            if rest = [] ∧ s2 % 4 = 0 then
              some [s0 * 4 + s1 / 16, s1 % 16 * 16 + s2 / 4]
            else none
          else
            match b64Sextet c3 with
            | some s3 =>
              match b64DecodeChars rest with
              | some bs =>
                some ((s0 * 4 + s1 / 16) :: (s1 % 16 * 16 + s2 / 4) :: (s2 % 4 * 64 + s3) :: bs)
              | none => none
            | none => none
        | none => none
    | _, _ => none
  | _ => none

/-- Result computation of the `secure_storage_get` command, as a function of
the bytes stored at the key's file (`none` when the file does not exist):
fail with the not-found error if the file does not exist, read it as a string
(`fs::read_to_string`), base64-decode it, UTF-8-decode the resulting bytes. -/
def read_value (content : Option (List Nat)) (key : String) : Except StorageError String :=
  match content with
  | none => .error (.notFound key)
  | some bytes =>
    match utf8DecodeStr bytes with
    | none => .error .readError
    | some encoded =>
      match b64DecodeChars encoded.data with
      | none => .error .decodeError
      | some decodedBytes =>
        match utf8DecodeStr decodedBytes with
        | none => .error .encodingError
        | some value => .ok value

/-- Model of the `secure_storage_get` command: resolve the key's file path
and run the read/decode chain on that file's content.  The second component
is the filesystem state after the call: `secure_storage_get` performs no
write or delete, so the state is returned unchanged. -/
def secure_storage_get (fs : FS) (key : String) : Except StorageError String × FS :=
  (read_value (fs (key_file_path key)) key, fs)

/-- Model of the `secure_storage_set` command: base64-encode the UTF-8 bytes
of `value` and write the resulting text as the complete content of the key's
file (`fs::write`), overwriting any previous content. -/
def secure_storage_set (fs : FS) (key value : String) : Except StorageError Unit × FS :=
  (.ok (),
    fun f =>
      if f = key_file_path key then
        some (utf8Encode (String.mk (b64EncodeBytes (utf8Encode value))))
      else fs f)

/-- Model of the `secure_storage_remove` command: if the key's file does not
exist return success without touching anything, otherwise delete the file
(`fs::remove_file`). -/
def secure_storage_remove (fs : FS) (key : String) : Except StorageError Unit × FS :=
  match fs (key_file_path key) with
  | none => (.ok (), fs)
  | some _ =>
    (.ok (), fun f => if f = key_file_path key then none else fs f)

/-- Model of the `check_file_exists` command:
`Ok(fs::metadata(&path).is_ok())` — metadata access succeeds exactly when the
path exists. -/
def check_file_exists (fs : FS) (path : String) : Except String Bool × FS :=
  (.ok (fs path).isSome, fs)

/-- Keys that are plain file-name stems: no path separator characters, so the
joined path stays inside the `.keys` directory and distinct keys name
distinct files. -/
def plainKey (key : String) : Prop :=
  '/' ∉ key.data ∧ '\\' ∉ key.data
theorem utf8Step_length {b0 : Nat} {l : List Nat} {c : Char} {l2 : List Nat}
    (h : utf8Step b0 l = some (c, l2)) : l2.length ≤ l.length := by
  rw [utf8Step.eq_def] at h
  repeat' split at h
  all_goals simp_all
  all_goals omega

theorem utf8DecodeAux_nil (f : Nat) : utf8DecodeAux f [] = some [] := by
  cases f <;> rfl

theorem utf8DecodeAux_cons_of_step {b0 : Nat} {t l2 : List Nat} {c : Char} (f : Nat)
    (h : utf8Step b0 t = some (c, l2)) :
    utf8DecodeAux (f + 1) (b0 :: t) = (utf8DecodeAux f l2).map (fun cs => c :: cs) := by
  simp only [utf8DecodeAux, h]

theorem utf8DecodeAux_congr (f1 f2 : Nat) (l : List Nat)
    (h1 : l.length ≤ f1) (h2 : l.length ≤ f2) :
    utf8DecodeAux f1 l = utf8DecodeAux f2 l := by
  induction f1 generalizing f2 l with
  | zero =>
    have hl : l = [] := List.length_eq_zero.mp (Nat.le_zero.mp h1)
    subst hl
    rw [utf8DecodeAux_nil, utf8DecodeAux_nil]
  | succ f ih =>
    cases l with
    | nil => rw [utf8DecodeAux_nil, utf8DecodeAux_nil]
    | cons b0 t =>
      cases f2 with
      | zero => simp at h2
      | succ f2' =>
        simp only [utf8DecodeAux]
        cases hstep : utf8Step b0 t with
        | none => rfl
        | some p =>
          obtain ⟨c, l2⟩ := p
          have hl2 : l2.length ≤ t.length := utf8Step_length hstep
          simp only [List.length_cons] at h1 h2
          show Option.map (fun cs => c :: cs) (utf8DecodeAux f l2) =
            Option.map (fun cs => c :: cs) (utf8DecodeAux f2' l2)
          rw [ih f2' l2 (by omega) (by omega)]

theorem utf8DecodeCore_encodeChar (c : Char) (l : List Nat) :
    utf8DecodeCore (utf8EncodeChar c.toNat ++ l) = (utf8DecodeCore l).map (fun cs => c :: cs) := by
  have hv : c.toNat < 0xD800 ∨ (0xDFFF < c.toNat ∧ c.toNat < 0x110000) := c.valid
  have hofNat : Char.ofNat c.toNat = c := Char.ofNat_toNat c
  by_cases h1 : c.toNat < 0x80
  · have henc : utf8EncodeChar c.toNat = [c.toNat] := by
      rw [utf8EncodeChar, if_pos h1]
    have hstep : utf8Step c.toNat l = some (c, l) := by
      rw [utf8Step.eq_def, if_pos h1, hofNat]
    rw [utf8DecodeCore, henc]
    simp only [List.cons_append, List.nil_append, List.length_cons]
    rw [utf8DecodeAux_cons_of_step _ hstep]
    rw [utf8DecodeCore]
  by_cases h2 : c.toNat < 0x800
  · have henc : utf8EncodeChar c.toNat = [0xC0 + c.toNat / 64, 0x80 + c.toNat % 64] := by
      rw [utf8EncodeChar, if_neg h1, if_pos h2]
    have hguard : isCont (0x80 + c.toNat % 64) ∧
        okScalar2 (utf8Scalar2 (0xC0 + c.toNat / 64) (0x80 + c.toNat % 64)) := by
      simp only [isCont, okScalar2, utf8Scalar2]
      omega
    have hscalar : utf8Scalar2 (0xC0 + c.toNat / 64) (0x80 + c.toNat % 64) = c.toNat := by
      simp only [utf8Scalar2]; omega
    have hstep : utf8Step (0xC0 + c.toNat / 64) ((0x80 + c.toNat % 64) :: l) = some (c, l) := by
      rw [utf8Step.eq_def]
      rw [if_neg (by omega), if_neg (by omega), if_pos (by omega)]
      show (if isCont (0x80 + c.toNat % 64) ∧
          okScalar2 (utf8Scalar2 (0xC0 + c.toNat / 64) (0x80 + c.toNat % 64)) then
          some (Char.ofNat (utf8Scalar2 (0xC0 + c.toNat / 64) (0x80 + c.toNat % 64)), l)
        else none) = some (c, l)
      rw [if_pos hguard, hscalar, hofNat]
    rw [utf8DecodeCore, henc]
    simp only [List.cons_append, List.nil_append, List.length_cons]
    rw [utf8DecodeAux_cons_of_step _ hstep]
    rw [utf8DecodeAux_congr (l.length + 1) l.length l (by omega) (Nat.le_refl _)]
    rw [utf8DecodeCore]
  by_cases h3 : c.toNat < 0x10000
  · have henc : utf8EncodeChar c.toNat =
        [0xE0 + c.toNat / 4096, 0x80 + c.toNat / 64 % 64, 0x80 + c.toNat % 64] := by
      rw [utf8EncodeChar, if_neg h1, if_neg h2, if_pos h3]
    have hguard : isCont (0x80 + c.toNat / 64 % 64) ∧ isCont (0x80 + c.toNat % 64) ∧
        okScalar3 (utf8Scalar3 (0xE0 + c.toNat / 4096) (0x80 + c.toNat / 64 % 64)
          (0x80 + c.toNat % 64)) := by
      simp only [isCont, okScalar3, utf8Scalar3]
      omega
    have hscalar : utf8Scalar3 (0xE0 + c.toNat / 4096) (0x80 + c.toNat / 64 % 64)
        (0x80 + c.toNat % 64) = c.toNat := by
      simp only [utf8Scalar3]; omega
    have hstep : utf8Step (0xE0 + c.toNat / 4096)
        ((0x80 + c.toNat / 64 % 64) :: (0x80 + c.toNat % 64) :: l) = some (c, l) := by
      rw [utf8Step.eq_def]
      rw [if_neg (by omega), if_neg (by omega), if_neg (by omega), if_pos (by omega)]
      show (if isCont (0x80 + c.toNat / 64 % 64) ∧ isCont (0x80 + c.toNat % 64) ∧
          okScalar3 (utf8Scalar3 (0xE0 + c.toNat / 4096) (0x80 + c.toNat / 64 % 64)
            (0x80 + c.toNat % 64)) then
          some (Char.ofNat (utf8Scalar3 (0xE0 + c.toNat / 4096) (0x80 + c.toNat / 64 % 64)
            (0x80 + c.toNat % 64)), l)
        else none) = some (c, l)
      rw [if_pos hguard, hscalar, hofNat]
    rw [utf8DecodeCore, henc]
    simp only [List.cons_append, List.nil_append, List.length_cons]
    rw [utf8DecodeAux_cons_of_step _ hstep]
    rw [utf8DecodeAux_congr (l.length + 1 + 1) l.length l (by omega) (Nat.le_refl _)]
    rw [utf8DecodeCore]
  · have henc : utf8EncodeChar c.toNat =
        [0xF0 + c.toNat / 262144, 0x80 + c.toNat / 4096 % 64, 0x80 + c.toNat / 64 % 64,
          0x80 + c.toNat % 64] := by
      rw [utf8EncodeChar, if_neg h1, if_neg h2, if_neg h3]
    have hguard : isCont (0x80 + c.toNat / 4096 % 64) ∧ isCont (0x80 + c.toNat / 64 % 64) ∧
        isCont (0x80 + c.toNat % 64) ∧
        okScalar4 (utf8Scalar4 (0xF0 + c.toNat / 262144) (0x80 + c.toNat / 4096 % 64)
          (0x80 + c.toNat / 64 % 64) (0x80 + c.toNat % 64)) := by
      simp only [isCont, okScalar4, utf8Scalar4]
      omega
    have hscalar : utf8Scalar4 (0xF0 + c.toNat / 262144) (0x80 + c.toNat / 4096 % 64)
        (0x80 + c.toNat / 64 % 64) (0x80 + c.toNat % 64) = c.toNat := by
      simp only [utf8Scalar4]; omega
    have hstep : utf8Step (0xF0 + c.toNat / 262144)
        ((0x80 + c.toNat / 4096 % 64) :: (0x80 + c.toNat / 64 % 64) ::
          (0x80 + c.toNat % 64) :: l) = some (c, l) := by
      rw [utf8Step.eq_def]
      rw [if_neg (by omega), if_neg (by omega), if_neg (by omega), if_neg (by omega),
        if_pos (by omega)]
      show (if isCont (0x80 + c.toNat / 4096 % 64) ∧ isCont (0x80 + c.toNat / 64 % 64) ∧
          isCont (0x80 + c.toNat % 64) ∧
          okScalar4 (utf8Scalar4 (0xF0 + c.toNat / 262144) (0x80 + c.toNat / 4096 % 64)
            (0x80 + c.toNat / 64 % 64) (0x80 + c.toNat % 64)) then
          some (Char.ofNat (utf8Scalar4 (0xF0 + c.toNat / 262144) (0x80 + c.toNat / 4096 % 64)
            (0x80 + c.toNat / 64 % 64) (0x80 + c.toNat % 64)), l)
        else none) = some (c, l)
      rw [if_pos hguard, hscalar, hofNat]
    rw [utf8DecodeCore, henc]
    simp only [List.cons_append, List.nil_append, List.length_cons]
    rw [utf8DecodeAux_cons_of_step _ hstep]
    rw [utf8DecodeAux_congr (l.length + 1 + 1 + 1) l.length l (by omega) (Nat.le_refl _)]
    rw [utf8DecodeCore]

theorem utf8DecodeCore_encodeList (cs : List Char) :
    utf8DecodeCore (utf8EncodeList cs) = some cs := by
  induction cs with
  | nil => rfl
  | cons c cs ih =>
    rw [utf8EncodeList, utf8DecodeCore_encodeChar, ih]
    rfl

theorem utf8DecodeStr_encode (s : String) : utf8DecodeStr (utf8Encode s) = some s := by
  rw [utf8Encode, utf8DecodeStr, utf8DecodeCore_encodeList]
  rfl

theorem utf8EncodeChar_lt (n : Nat) (hn : n < 0x110000) :
    ∀ b ∈ utf8EncodeChar n, b < 256 := by
  intro b hb
  rw [utf8EncodeChar] at hb
  split at hb
  · simp only [List.mem_cons, List.not_mem_nil, or_false] at hb
    omega
  · split at hb
    · simp only [List.mem_cons, List.not_mem_nil, or_false] at hb
      omega
    · split at hb
      · simp only [List.mem_cons, List.not_mem_nil, or_false] at hb
        omega
      · simp only [List.mem_cons, List.not_mem_nil, or_false] at hb
        omega

theorem utf8EncodeList_lt (cs : List Char) : ∀ b ∈ utf8EncodeList cs, b < 256 := by
  induction cs with
  | nil => intro b hb; cases hb
  | cons c cs ih =>
    intro b hb
    rw [utf8EncodeList] at hb
    rcases List.mem_append.mp hb with h | h
    · have hv : c.toNat < 0xD800 ∨ (0xDFFF < c.toNat ∧ c.toNat < 0x110000) := c.valid
      exact utf8EncodeChar_lt c.toNat (by omega) b h
    · exact ih b h

theorem utf8Encode_lt (s : String) : ∀ b ∈ utf8Encode s, b < 256 :=
  utf8EncodeList_lt s.data

theorem b64Char_spec : ∀ s : Nat, s < 64 → b64Sextet (b64Char s) = some s ∧ b64Char s ≠ '=' := by
  decide

theorem b64DecodeChars_encodeBytes : ∀ (bs : List Nat), (∀ b ∈ bs, b < 256) →
    b64DecodeChars (b64EncodeBytes bs) = some bs := by
  intro bs
  induction bs using b64EncodeBytes.induct with
  | case1 => intro _; rfl
  | case2 b0 =>
    intro h
    have hb0 : b0 < 256 := h b0 (by simp)
    have e0 := (b64Char_spec (b0 / 4) (by omega)).1
    have e1 := (b64Char_spec (b0 % 4 * 16) (by omega)).1
    rw [b64EncodeBytes, b64DecodeChars]
    simp only [e0, e1, if_true, true_and]
    rw [if_pos (show b0 % 4 * 16 % 16 = 0 by omega)]
    simp only [Option.some.injEq, List.cons.injEq, and_true]
    omega
  | case3 b0 b1 =>
    intro h
    have hb0 : b0 < 256 := h b0 (by simp)
    have hb1 : b1 < 256 := h b1 (by simp)
    have e0 := (b64Char_spec (b0 / 4) (by omega)).1
    have e1 := (b64Char_spec (b0 % 4 * 16 + b1 / 16) (by omega)).1
    have e2 := (b64Char_spec (b1 % 16 * 4) (by omega)).1
    have ne2 := (b64Char_spec (b1 % 16 * 4) (by omega)).2
    rw [b64EncodeBytes, b64DecodeChars]
    simp only [e0, e1]
    rw [if_neg ne2]
    simp only [e2, if_true, true_and]
    rw [if_pos (show b1 % 16 * 4 % 4 = 0 by omega)]
    simp only [Option.some.injEq, List.cons.injEq, and_true]
    constructor
    · omega
    · omega
  | case4 b0 b1 b2 rest ih =>
    intro h
    have hb0 : b0 < 256 := h b0 (by simp)
    have hb1 : b1 < 256 := h b1 (by simp)
    have hb2 : b2 < 256 := h b2 (by simp)
    have hrest : ∀ b ∈ rest, b < 256 := fun b hb => h b (by simp [hb])
    have e0 := (b64Char_spec (b0 / 4) (by omega)).1
    have e1 := (b64Char_spec (b0 % 4 * 16 + b1 / 16) (by omega)).1
    have e2 := (b64Char_spec (b1 % 16 * 4 + b2 / 64) (by omega)).1
    have ne2 := (b64Char_spec (b1 % 16 * 4 + b2 / 64) (by omega)).2
    have e3 := (b64Char_spec (b2 % 64) (by omega)).1
    have ne3 := (b64Char_spec (b2 % 64) (by omega)).2
    rw [b64EncodeBytes, b64DecodeChars]
    simp only [e0, e1]
    rw [if_neg ne2]
    simp only [e2]
    rw [if_neg ne3]
    simp only [e3]
    rw [ih hrest]
    simp only [Option.some.injEq, List.cons.injEq, and_true]
    refine ⟨by omega, by omega, by omega⟩

theorem string_data_append (a b : String) : (a ++ b).data = a.data ++ b.data := rfl

theorem string_eq_of_data_eq {a b : String} (h : a.data = b.data) : a = b := by
  cases a
  cases b
  cases h
  rfl

theorem key_file_path_inj {k k' : String} (hne : k ≠ k') :
    key_file_path k ≠ key_file_path k' := by
  intro he
  apply hne
  have hd := congrArg String.data he
  rw [key_file_path, key_file_path] at hd
  simp only [string_data_append] at hd
  exact string_eq_of_data_eq (List.append_cancel_left (List.append_cancel_right hd))

theorem get_set_roundtrip (fs : FS) (key value : String) :
    (secure_storage_get (secure_storage_set fs key value).2 key).1 = .ok value := by
  have h2 : b64DecodeChars (String.mk (b64EncodeBytes (utf8Encode value))).data =
      some (utf8Encode value) :=
    b64DecodeChars_encodeBytes _ (utf8Encode_lt value)
  simp [secure_storage_get, secure_storage_set, read_value, utf8DecodeStr_encode, h2]

theorem set_file_content (fs : FS) (key value : String) :
    (secure_storage_set fs key value).2 (key_file_path key) =
      some (utf8Encode (String.mk (b64EncodeBytes (utf8Encode value)))) := by
  simp [secure_storage_set]

theorem get_result_congr (fs1 fs2 : FS) (key : String)
    (h : fs1 (key_file_path key) = fs2 (key_file_path key)) :
    (secure_storage_get fs1 key).1 = (secure_storage_get fs2 key).1 := by
  show read_value (fs1 (key_file_path key)) key = read_value (fs2 (key_file_path key)) key
  rw [h]

theorem remove_clears_file (fs : FS) (key : String) :
    (secure_storage_remove fs key).2 (key_file_path key) = none := by
  rw [secure_storage_remove.eq_def]
  cases hf : fs (key_file_path key) with
  | none =>
    show fs (key_file_path key) = none
    exact hf
  | some bytes =>
    show (if key_file_path key = key_file_path key then none else fs (key_file_path key)) = none
    rw [if_pos rfl]

theorem set_preserves_other (fs : FS) (k v : String) (p : String)
    (hne : p ≠ key_file_path k) :
    (secure_storage_set fs k v).2 p = fs p := by
  show (if p = key_file_path k then
      some (utf8Encode (String.mk (b64EncodeBytes (utf8Encode v))))
    else fs p) = fs p
  rw [if_neg hne]

theorem remove_preserves_other (fs : FS) (k : String) (p : String)
    (hne : p ≠ key_file_path k) :
    (secure_storage_remove fs k).2 p = fs p := by
  rw [secure_storage_remove.eq_def]
  cases hf : fs (key_file_path k) with
  | none => rfl
  | some bytes =>
    show (if p = key_file_path k then none else fs p) = fs p
    rw [if_neg hne]

/-- C1: for every key and value, setting the key to the value and then
getting the key (with no intervening operation) returns exactly the value. -/
theorem C1_set_then_get_roundtrip (fs : FS) (key value : String) :
    (secure_storage_get (secure_storage_set fs key value).2 key).1 = .ok value :=
  get_set_roundtrip fs key value

/-- C2: after removing a key, getting it (with no intervening set) fails with
the not-found error, because the key's file no longer exists. -/
theorem C2_remove_then_get_not_found (fs : FS) (key : String) :
    (secure_storage_remove fs key).2 (key_file_path key) = none ∧
    (secure_storage_get (secure_storage_remove fs key).2 key).1 =
      .error (.notFound key) := by
  refine ⟨remove_clears_file fs key, ?_⟩
  show read_value ((secure_storage_remove fs key).2 (key_file_path key)) key = _
  rw [remove_clears_file]
  rfl

/-- C3: removing a key whose file does not exist succeeds and changes
nothing: an idempotent no-op (the storage directory resolves in the modeled
environment). -/
theorem C3_remove_missing_is_noop (fs : FS) (key : String)
    (h : fs (key_file_path key) = none) :
    secure_storage_remove fs key = (.ok (), fs) := by
  rw [secure_storage_remove.eq_def, h]

theorem C3_remove_missing_is_noop_witness :
    emptyFS (key_file_path "token") = none ∧
      secure_storage_remove emptyFS "token" = (.ok (), emptyFS) :=
  ⟨rfl, C3_remove_missing_is_noop emptyFS "token" rfl⟩

/-- C4: a second set of the same key overwrites the file's full content with
the encoding of the new value, and a subsequent get returns the new value. -/
theorem C4_set_overwrites_last_write_wins (fs : FS) (key v1 v2 : String) :
    (secure_storage_set (secure_storage_set fs key v1).2 key v2).2 (key_file_path key) =
      some (utf8Encode (String.mk (b64EncodeBytes (utf8Encode v2)))) ∧
    (secure_storage_get (secure_storage_set (secure_storage_set fs key v1).2 key v2).2 key).1 =
      .ok v2 :=
  ⟨set_file_content _ key v2, get_set_roundtrip _ key v2⟩

/-- C5: getting a key whose file exists but whose textual content is not
valid standard base64 fails with the decode error, not a silent value. -/
theorem C5_get_non_base64_decode_error (fs : FS) (key content : String)
    (hfile : fs (key_file_path key) = some (utf8Encode content))
    (hbad : b64DecodeChars content.data = none) :
    (secure_storage_get fs key).1 = .error .decodeError := by
  show read_value (fs (key_file_path key)) key = _
  rw [hfile]
  simp [read_value, utf8DecodeStr_encode, hbad]

theorem C5_get_non_base64_decode_error_witness :
    (fun f => if f = key_file_path "k" then some (utf8Encode "!!!") else none : FS)
        (key_file_path "k") = some (utf8Encode "!!!") ∧
      b64DecodeChars ("!!!").data = none ∧
      (secure_storage_get
        (fun f => if f = key_file_path "k" then some (utf8Encode "!!!") else none) "k").1 =
        .error .decodeError :=
  ⟨by simp, by decide,
    C5_get_non_base64_decode_error
      (fun f => if f = key_file_path "k" then some (utf8Encode "!!!") else none) "k" "!!!"
      (by simp) (by decide)⟩

/-- C6: the concrete scenario: setting key token to abc123 creates the file
named .keys/token.dat whose entire content is the base64 text YWJjMTIz, and
a get of token afterwards returns abc123. -/
theorem C6_token_scenario :
    key_file_path "token" = ".keys/token.dat" ∧
    (secure_storage_set emptyFS "token" "abc123").1 = .ok () ∧
    (secure_storage_set emptyFS "token" "abc123").2 ".keys/token.dat" =
      some (utf8Encode "YWJjMTIz") ∧
    (secure_storage_get (secure_storage_set emptyFS "token" "abc123").2 "token").1 =
      .ok "abc123" := by
  refine ⟨by decide, rfl, by decide, rfl⟩

/-- C7: the file-existence check never returns an error: it returns false
whenever the path's metadata cannot be accessed (the path has no file), and
true when metadata access succeeds. -/
theorem C7_check_file_exists_never_errors (fs : FS) (path : String) :
    (∃ b, (check_file_exists fs path).1 = .ok b) ∧
    (fs path = none → (check_file_exists fs path).1 = .ok false) ∧
    (∀ c, fs path = some c → (check_file_exists fs path).1 = .ok true) := by
  refine ⟨⟨(fs path).isSome, rfl⟩, fun h => ?_, fun c h => ?_⟩ <;>
    simp [check_file_exists, h]

theorem C7_check_file_exists_never_errors_witness :
    emptyFS "/nonexistent/path" = none ∧
      (check_file_exists emptyFS "/nonexistent/path").1 = .ok false :=
  ⟨rfl, (C7_check_file_exists_never_errors emptyFS "/nonexistent/path").2.1 rfl⟩

/-- C8: get has no side effects: the filesystem state after a get, whether
it succeeds or fails, is exactly the state before the call. -/
theorem C8_get_no_side_effects (fs : FS) (key : String) :
    (secure_storage_get fs key).2 = fs := rfl

/-- C9: an empty value is observably distinct from an absent key: after
setting a key to the empty string, its file exists with empty content and
get returns the empty string, whereas a key with no file fails with the
not-found error. -/
theorem C9_empty_value_distinct_from_absent (fs : FS) (key : String) :
    ((secure_storage_set fs key "").1 = .ok () ∧
      (secure_storage_set fs key "").2 (key_file_path key) = some [] ∧
      (secure_storage_get (secure_storage_set fs key "").2 key).1 = .ok "") ∧
    (fs (key_file_path key) = none →
      (secure_storage_get fs key).1 = .error (.notFound key)) := by
  refine ⟨⟨rfl, set_file_content fs key "", get_set_roundtrip fs key ""⟩, fun h => ?_⟩
  show read_value (fs (key_file_path key)) key = _
  rw [h]
  rfl

theorem C9_empty_value_distinct_from_absent_witness :
    (secure_storage_get (secure_storage_set emptyFS "token" "").2 "token").1 = .ok "" ∧
      (secure_storage_get emptyFS "token").1 = .error (.notFound "token") :=
  ⟨(C9_empty_value_distinct_from_absent emptyFS "token").1.2.2,
    (C9_empty_value_distinct_from_absent emptyFS "token").2 rfl⟩

/-- C10: for two distinct keys that are plain file-name stems, set and
remove of one key leave the other key's file, and hence the result of
getting the other key, unchanged. -/
theorem C10_ops_preserve_other_keys (fs : FS) (k k' v : String) (hne : k ≠ k')
    (_hk : plainKey k) (_hk' : plainKey k') :
    ((secure_storage_set fs k v).2 (key_file_path k') = fs (key_file_path k') ∧
      (secure_storage_get (secure_storage_set fs k v).2 k').1 =
        (secure_storage_get fs k').1) ∧
    ((secure_storage_remove fs k).2 (key_file_path k') = fs (key_file_path k') ∧
      (secure_storage_get (secure_storage_remove fs k).2 k').1 =
        (secure_storage_get fs k').1) := by
  have hpne : key_file_path k' ≠ key_file_path k := key_file_path_inj (Ne.symm hne)
  exact ⟨⟨set_preserves_other fs k v _ hpne,
      get_result_congr _ _ k' (set_preserves_other fs k v _ hpne)⟩,
    ⟨remove_preserves_other fs k _ hpne,
      get_result_congr _ _ k' (remove_preserves_other fs k _ hpne)⟩⟩

theorem C10_ops_preserve_other_keys_witness :
    ("a" : String) ≠ "b" ∧
      (secure_storage_set emptyFS "a" "x").2 (key_file_path "b") =
        emptyFS (key_file_path "b") :=
  ⟨by decide,
    (C10_ops_preserve_other_keys emptyFS "a" "b" "x" (by decide)
      (by unfold plainKey; decide) (by unfold plainKey; decide)).1.1⟩
